import Mathlib

/-!
Verification of the flocking/steering core of the `tamama` terminal boids
simulation.  The Rust source (`boid.rs`, `config.rs`, `simulation.rs`) works on
`f32`; here it is embedded over the real numbers, the usual idealisation of
floating-point arithmetic.  Rust's panicking index `boids[i]` is modelled with
`List.get?`: a function that would panic returns `none`.  The unseeded random
sources used at construction time are modelled by passing the sampled values in
explicitly (a stream `ℕ → Vec2 × ℝ` of sampled positions and angles).
-/

noncomputable section

/-- 2D vector value type (`Vec2` in `boid.rs`). -/
structure Vec2 where
  x : ℝ
  y : ℝ

namespace Vec2

/-- `Vec2::zero`. -/
def zero : Vec2 := ⟨0, 0⟩

/-- `Vec2::magnitude`: `(x*x + y*y).sqrt()`. -/
def magnitude (v : Vec2) : ℝ := Real.sqrt (v.x * v.x + v.y * v.y)

/-- `Vec2::magnitude_squared`. -/
def magnitude_squared (v : Vec2) : ℝ := v.x * v.x + v.y * v.y

instance : Add Vec2 := ⟨fun a b => ⟨a.x + b.x, a.y + b.y⟩⟩

instance : Sub Vec2 := ⟨fun a b => ⟨a.x - b.x, a.y - b.y⟩⟩

instance : HMul Vec2 ℝ Vec2 := ⟨fun v s => ⟨v.x * s, v.y * s⟩⟩

instance : HDiv Vec2 ℝ Vec2 := ⟨fun v s => ⟨v.x / s, v.y / s⟩⟩

/-- `Vec2::normalize`: divide by the magnitude when it is positive, otherwise
return the vector unchanged. -/
def normalize (v : Vec2) : Vec2 :=
  let mag := v.magnitude
  if mag > 0 then ⟨v.x / mag, v.y / mag⟩ else v

/-- `Vec2::limit`: cap the magnitude at `max`, preserving direction. -/
def limit (v : Vec2) (max : ℝ) : Vec2 :=
  if v.magnitude_squared > max * max then v.normalize * max else v

/-- `Vec2::distance_to`. -/
def distance_to (v other : Vec2) : ℝ :=
  Real.sqrt ((v.x - other.x) * (v.x - other.x) + (v.y - other.y) * (v.y - other.y))

end Vec2

/-- `Config` in `config.rs`: read-only numeric simulation parameters. -/
structure Config where
  width : ℝ
  height : ℝ
  num_boids : ℕ
  max_speed : ℝ
  max_force : ℝ
  separation_radius : ℝ
  alignment_radius : ℝ
  cohesion_radius : ℝ
  separation_weight : ℝ
  alignment_weight : ℝ
  cohesion_weight : ℝ

/-- `Config::default()`. -/
def Config.default : Config :=
  { width := 80
    height := 24
    num_boids := 25
    max_speed := 1.5
    max_force := 0.08
    separation_radius := 3
    alignment_radius := 5
    cohesion_radius := 5
    separation_weight := 2
    alignment_weight := 1.2
    cohesion_weight := 1 }

/-- `Boid` in `boid.rs`: per-agent kinematic state. -/
structure Boid where
  position : Vec2
  velocity : Vec2
  acceleration : Vec2
  is_leader : Bool

namespace Boid

/-- `Boid::new`: random position inside the arena and a random unit heading
scaled by `max_speed * 0.5`; the sampled position and angle are passed in
explicitly in place of the unseeded random source. -/
def new (config : Config) (rpos : Vec2) (rangle : ℝ) : Boid :=
  { position := rpos
    velocity := (⟨Real.cos rangle, Real.sin rangle⟩ : Vec2) * (config.max_speed * 0.5)
    acceleration := Vec2.zero
    is_leader := false }

/-- `Boid::new_leader`. -/
def new_leader (config : Config) : Boid :=
  { position := ⟨config.width * 0.1, config.height * 0.5⟩
    velocity := ⟨config.max_speed * 0.6, 0⟩
    acceleration := Vec2.zero
    is_leader := true }

/-- `Boid::apply_force`: accumulate into the acceleration. -/
def apply_force (b : Boid) (force : Vec2) : Boid :=
  { b with acceleration := b.acceleration + force }

/-- The shared per-axis body of `Boid::bounce_off_boundaries` (margin = 1):
clamp the position into `[1, bound - 1]` and reflect the velocity component
toward the interior at a clamped edge. -/
def bounceAxis (pos v bound : ℝ) : ℝ × ℝ :=
  if pos < 1 then (1, |v|)
  else if pos > bound - 1 then (bound - 1, -|v|)
  else (pos, v)

/-- `Boid::bounce_off_boundaries`, applied on each axis independently. -/
def bounce_off_boundaries (b : Boid) (config : Config) : Boid :=
  let xr := bounceAxis b.position.x b.velocity.x config.width
  let yr := bounceAxis b.position.y b.velocity.y config.height
  { b with position := ⟨xr.1, yr.1⟩, velocity := ⟨xr.2, yr.2⟩ }

/-- `Boid::update`: velocity += acceleration; limit; position += velocity;
acceleration reset; then boundary bounce. -/
def update (b : Boid) (config : Config) : Boid :=
  let velocity := (b.velocity + b.acceleration).limit config.max_speed
  let position := b.position + velocity
  bounce_off_boundaries
    { b with position := position, velocity := velocity, acceleration := Vec2.zero }
    config

end Boid

/-- `PatrolDirection` in `simulation.rs`. -/
inductive PatrolDirection where
  | ToRight
  | ToLeft
deriving DecidableEq

/-- `LeaderBird` in `simulation.rs`: the leader's patrol state, holding a
non-owning index into the agent collection. -/
structure LeaderBird where
  boid_index : ℕ
  direction : PatrolDirection
  target_x : ℝ
  sine_time : ℝ
  sine_frequency : ℝ
  sine_amplitude : ℝ

/-- `LeaderBird::new`. -/
def LeaderBird.new (boid_index : ℕ) (config : Config) : LeaderBird :=
  { boid_index := boid_index
    direction := PatrolDirection.ToRight
    target_x := config.width * 0.9
    sine_time := 0
    sine_frequency := 0.02
    sine_amplitude := config.height * 0.3 }

/-- `Simulation` in `simulation.rs`. -/
structure Simulation where
  boids : List Boid
  config : Config
  leader : Option LeaderBird

/-- The flock members created by the `for _ in 1..num_boids` loops: `n` calls
to `Boid::new`, consuming the random stream `rnd`. -/
def mkFlock (config : Config) (rnd : ℕ → Vec2 × ℝ) (n : ℕ) : List Boid :=
  (List.range n).map (fun k => Boid.new config (rnd k).1 (rnd k).2)

namespace Simulation

/-- The shared body of `Simulation::new` and `Simulation::new_with_size` once
the configuration has been computed (`Config::default()` resp.
`Config::with_terminal_size`): push the leader, then `num_boids - 1` random
boids, and record the leader at index 0. -/
def new (config : Config) (rnd : ℕ → Vec2 × ℝ) : Simulation :=
  { boids := Boid.new_leader config :: mkFlock config rnd (config.num_boids - 1)
    config := config
    leader := some (LeaderBird.new 0 config) }

/-- `Simulation::reset`: clear and re-create the leader plus the flock, and
reinitialize the leader state. -/
def reset (s : Simulation) (rnd : ℕ → Vec2 × ℝ) : Simulation :=
  { s with
    boids := Boid.new_leader s.config :: mkFlock s.config rnd (s.config.num_boids - 1)
    leader := some (LeaderBird.new 0 s.config) }

/-- `Simulation::adjust_boid_count_for_size`, with the freshly computed
`Config::with_terminal_size` passed in as `new_config`: grow by pushing new
random boids at the tail, shrink by truncating (only when the target is
positive), then recompute the leader's `target_x` and `sine_amplitude`. -/
def adjust_boid_count_for_size (s : Simulation) (new_config : Config)
    (rnd : ℕ → Vec2 × ℝ) : Simulation :=
  let target_count := new_config.num_boids
  let current_count := s.boids.length
  let boids :=
    if target_count > current_count then
      s.boids ++ mkFlock new_config rnd (target_count - current_count)
    else if target_count < current_count then
      if target_count > 0 then s.boids.take target_count else s.boids
    else s.boids
  let leader := s.leader.map (fun L =>
    { L with
      target_x :=
        match L.direction with
        | PatrolDirection.ToRight => new_config.width * 0.9
        | PatrolDirection.ToLeft => new_config.width * 0.1
      sine_amplitude := new_config.height * 0.3 })
  { boids := boids, config := new_config, leader := leader }

/-- `Simulation::update_leader_state`: advance the sine phase and flip the
patrol direction at the `width*0.9` / `width*0.1` thresholds; a leader index
out of bounds leaves everything unchanged. -/
def update_leader_state (s : Simulation) : Simulation :=
  match s.leader with
  | none => s
  | some L =>
    match s.boids.get? L.boid_index with
    | none => s
    | some leader_boid =>
      let L1 := { L with sine_time := L.sine_time + L.sine_frequency }
      let L2 :=
        match L1.direction with
        | PatrolDirection.ToRight =>
          if leader_boid.position.x ≥ s.config.width * 0.9 then
            { L1 with direction := PatrolDirection.ToLeft,
                      target_x := s.config.width * 0.1 }
          else L1
        | PatrolDirection.ToLeft =>
          if leader_boid.position.x ≤ s.config.width * 0.1 then
            { L1 with direction := PatrolDirection.ToRight,
                      target_x := s.config.width * 0.9 }
          else L1
      { s with leader := some L2 }

/-- The shared neighbour loop of the three flocking rules
(`for (i, other) in self.boids.iter().enumerate()` with the self-index
skipped): accumulate `contrib other` and a count over every neighbour at
distance strictly between 0 and `radius`. -/
def accumLoop (contrib : Boid → Vec2) (radius : ℝ) (cb : Boid) (index : ℕ) :
    List Boid → ℕ → Vec2 × ℕ → Vec2 × ℕ
  | [], _, acc => acc
  | other :: rest, i, acc =>
    let acc' :=
      if i = index then acc
      else
        let distance := cb.position.distance_to other.position
        if 0 < distance ∧ distance < radius then (acc.1 + contrib other, acc.2 + 1)
        else acc
    accumLoop contrib radius cb index rest (i + 1) acc'

/-- `Simulation::separation`; `none` models the panic of `self.boids[index]`
on an out-of-range index. -/
def separation (s : Simulation) (index : ℕ) : Option Vec2 :=
  (s.boids.get? index).map (fun current_boid =>
    let r := accumLoop
      (fun other => (current_boid.position - other.position).normalize /
        current_boid.position.distance_to other.position)
      s.config.separation_radius current_boid index s.boids 0 (Vec2.zero, 0)
    if 0 < r.2 then
      (((r.1 / (r.2 : ℝ)).normalize * s.config.max_speed) - current_boid.velocity).limit
        s.config.max_force
    else r.1)

/-- `Simulation::alignment`. -/
def alignment (s : Simulation) (index : ℕ) : Option Vec2 :=
  (s.boids.get? index).map (fun current_boid =>
    let r := accumLoop (fun other => other.velocity)
      s.config.alignment_radius current_boid index s.boids 0 (Vec2.zero, 0)
    if 0 < r.2 then
      (((r.1 / (r.2 : ℝ)).normalize * s.config.max_speed) - current_boid.velocity).limit
        s.config.max_force
    else Vec2.zero)

/-- `Simulation::seek`. -/
def seek (s : Simulation) (boid : Boid) (target : Vec2) : Vec2 :=
  let desired := (target - boid.position).normalize * s.config.max_speed
  (desired - boid.velocity).limit s.config.max_force

/-- `Simulation::cohesion`. -/
def cohesion (s : Simulation) (index : ℕ) : Option Vec2 :=
  (s.boids.get? index).map (fun current_boid =>
    let r := accumLoop (fun other => other.position)
      s.config.cohesion_radius current_boid index s.boids 0 (Vec2.zero, 0)
    if 0 < r.2 then s.seek current_boid (r.1 / (r.2 : ℝ))
    else Vec2.zero)

/-- `Simulation::leader_patrol_force`: seek a sine-wave target for the leader
itself, zero for anyone else; `none` models the panic of `self.boids[index]`. -/
def leader_patrol_force (s : Simulation) (index : ℕ) : Option Vec2 :=
  match s.leader with
  | none => some Vec2.zero
  | some leader =>
    if index = leader.boid_index then
      match s.boids.get? index with
      | none => none
      | some boid =>
        let center_y := s.config.height * 0.5
        let sine_y := center_y + Real.sin leader.sine_time * leader.sine_amplitude
        let target : Vec2 := ⟨leader.target_x, min (max sine_y 0) s.config.height⟩
        let desired := target - boid.position
        if 0 < desired.magnitude then
          some (((desired.normalize * s.config.max_speed) - boid.velocity).limit
            s.config.max_force)
        else some Vec2.zero
    else some Vec2.zero

/-- `Simulation::follow_leader_force`: steer toward a point `follow_distance`
behind the leader.  The leader's boid is read as `self.boids[leader.boid_index]`
with no bounds check, so an out-of-range leader index panics: `none`. -/
def follow_leader_force (s : Simulation) (index : ℕ) : Option Vec2 :=
  match s.leader with
  | none => some Vec2.zero
  | some leader =>
    match s.boids.get? leader.boid_index, s.boids.get? index with
    | some leader_boid, some current_boid =>
      let follow_distance : ℝ := 8
      let offset : Vec2 :=
        ⟨-leader_boid.velocity.normalize.x * follow_distance,
         -leader_boid.velocity.normalize.y * follow_distance⟩
      let target_position := leader_boid.position + offset
      let desired := target_position - current_boid.position
      if 0 < desired.magnitude then
        some ((desired.normalize * s.config.max_speed * (0.8 : ℝ) - current_boid.velocity).limit
          (s.config.max_force * 0.7))
      else some Vec2.zero
    | _, _ => none

/-- The body of the first loop of `Simulation::update`: the force pushed for
agent `i` — the patrol force for the leader boid, the weighted sum of the three
flocking rules plus the follow force (weight 1.5) for everyone else. -/
def computeForce (s : Simulation) (i : ℕ) : Option Vec2 :=
  match s.boids.get? i with
  | none => none
  | some b =>
    if b.is_leader then s.leader_patrol_force i
    else
      match s.separation i, s.alignment i, s.cohesion i, s.follow_leader_force i with
      | some sep, some ali, some coh, some fol =>
        some (sep * s.config.separation_weight + ali * s.config.alignment_weight
          + coh * s.config.cohesion_weight + fol * (1.5 : ℝ))
      | _, _, _, _ => none

/-- The first loop of `Simulation::update`: push one force per index in
order, propagating a panic (`none`) if any force computation panics. -/
def computeForces (s : Simulation) : List ℕ → Option (List Vec2)
  | [] => some []
  | i :: rest =>
    match s.computeForce i, computeForces s rest with
    | some f, some fs => some (f :: fs)
    | _, _ => none

/-- `Simulation::update`: advance the leader state, compute one force per agent
from the pre-tick state, then apply each force and integrate each agent once. -/
def update (s : Simulation) : Option Simulation :=
  let s1 := s.update_leader_state
  match computeForces s1 (List.range s1.boids.length) with
  | none => none
  | some forces =>
    some { s1 with
      boids := (s1.boids.zip forces).map
        (fun p => (p.1.apply_force p.2).update s1.config) }

/-- The force list of one tick, computed from an immutable snapshot. -/
def forces_snapshot (s : Simulation) : Option (List Vec2) :=
  computeForces s (List.range s.boids.length)

/-- Second phase: apply each force and integrate each agent exactly once. -/
def integrate_all (s : Simulation) (forces : List Vec2) : List Boid :=
  (s.boids.zip forces).map (fun p => (p.1.apply_force p.2).update s.config)

/-- Modelled from the spec: the reference two-phase tick — advance the leader
patrol state, compute every agent's force purely from the resulting pre-tick
snapshot, then apply all forces and integrate every agent exactly once in a
second pass. -/
def updateSpec (s : Simulation) : Option Simulation :=
  let pre := s.update_leader_state
  (forces_snapshot pre).map (fun forces => { pre with boids := integrate_all pre forces })

end Simulation

/-- The leader-reference invariant holding in every reachable state: the agent
collection is non-empty, and the leader record, when present, points at index
0, which is in bounds and names an agent flagged `is_leader`. -/
def ReachInv (s : Simulation) : Prop :=
  0 < s.boids.length ∧
  ∀ L, s.leader = some L →
    L.boid_index = 0 ∧ L.boid_index < s.boids.length ∧
    ∃ b, s.boids.get? L.boid_index = some b ∧ b.is_leader = true

/-- A fixed stand-in for the random stream, used in concrete instances. -/
def rnd0 : ℕ → Vec2 × ℝ := fun _ => (⟨2, 2⟩, 0)

/-- A concrete stationary non-leader agent. -/
def testBoid : Boid := ⟨⟨5, 5⟩, Vec2.zero, Vec2.zero, false⟩

/-- A concrete one-agent state whose leader record points past the end of the
collection (index 1 ≥ length 1), as it could after an external shrink. -/
def oobSim : Simulation :=
  { boids := [testBoid]
    config := Config.default
    leader := some ⟨1, PatrolDirection.ToRight, 72, 0, 0.02, 7.2⟩ }

/-- A concrete healthy one-agent simulation: the leader alone. -/
def oneBoidSim : Simulation :=
  { boids := [Boid.new_leader Config.default]
    config := Config.default
    leader := some (LeaderBird.new 0 Config.default) }

/-- `Config::default()` with the requested agent count set to zero. -/
def zeroBoidConfig : Config := { Config.default with num_boids := 0 }

namespace Vec2

theorem add_def (a b : Vec2) : a + b = ⟨a.x + b.x, a.y + b.y⟩ := rfl

theorem sub_def (a b : Vec2) : a - b = ⟨a.x - b.x, a.y - b.y⟩ := rfl

theorem smul_def (v : Vec2) (s : ℝ) : v * s = ⟨v.x * s, v.y * s⟩ := rfl

theorem sdiv_def (v : Vec2) (s : ℝ) : v / s = ⟨v.x / s, v.y / s⟩ := rfl

theorem magnitude_nonneg (v : Vec2) : 0 ≤ v.magnitude :=
  Real.sqrt_nonneg _

theorem magnitude_squared_nonneg (v : Vec2) : 0 ≤ v.magnitude_squared := by
  have hx : 0 ≤ v.x * v.x := mul_self_nonneg _
  have hy : 0 ≤ v.y * v.y := mul_self_nonneg _
  simpa [magnitude_squared] using add_nonneg hx hy

theorem magnitude_mul_self (v : Vec2) :
    v.magnitude * v.magnitude = v.magnitude_squared := by
  simpa [magnitude, magnitude_squared] using
    Real.mul_self_sqrt (by simpa [magnitude_squared] using v.magnitude_squared_nonneg)

theorem magnitude_pos_of_sq_pos (v : Vec2) (h : 0 < v.magnitude_squared) :
    0 < v.magnitude := by
  have := Real.sqrt_pos.mpr (by simpa [magnitude_squared] using h)
  simpa [magnitude] using this

/-- The normalized vector of a vector of positive magnitude is a unit vector. -/
theorem normalize_magnitude (v : Vec2) (h : 0 < v.magnitude) :
    v.normalize.magnitude = 1 := by
  have hS : 0 < v.magnitude_squared := by
    have h2 := mul_pos h h
    rw [magnitude_mul_self] at h2
    exact h2
  have hmul := v.magnitude_mul_self
  simp only [normalize, h, if_pos]
  show Real.sqrt (v.x / v.magnitude * (v.x / v.magnitude) +
    v.y / v.magnitude * (v.y / v.magnitude)) = 1
  have hm : v.magnitude ≠ 0 := ne_of_gt h
  have harg : v.x / v.magnitude * (v.x / v.magnitude) +
      v.y / v.magnitude * (v.y / v.magnitude) = 1 := by
    have hS' : v.x * v.x + v.y * v.y ≠ 0 := by
      have : v.magnitude_squared ≠ 0 := ne_of_gt hS
      simpa [magnitude_squared] using this
    field_simp
    simpa [magnitude_squared] using hmul.symm
  rw [harg, Real.sqrt_one]

/-- Scaling a vector by `s` scales its magnitude by `|s|`. -/
theorem smul_magnitude (v : Vec2) (s : ℝ) :
    (v * s).magnitude = |s| * v.magnitude := by
  show Real.sqrt (v.x * s * (v.x * s) + v.y * s * (v.y * s)) = |s| * v.magnitude
  have : v.x * s * (v.x * s) + v.y * s * (v.y * s)
      = (s * s) * (v.x * v.x + v.y * v.y) := by ring
  rw [this, Real.sqrt_mul (mul_self_nonneg s), Real.sqrt_mul_self_eq_abs, magnitude]

/-- `limit` genuinely caps the magnitude at `max` whenever `max` is
nonnegative. -/
theorem limit_magnitude_le (v : Vec2) (max : ℝ) (hmax : 0 ≤ max) :
    (v.limit max).magnitude ≤ max := by
  by_cases h : v.magnitude_squared > max * max
  · have hpos : 0 < v.magnitude := by
      apply v.magnitude_pos_of_sq_pos
      have : (0 : ℝ) ≤ max * max := mul_nonneg hmax hmax
      linarith
    simp only [limit, h, if_pos]
    rw [smul_magnitude, normalize_magnitude v hpos]
    simp [abs_of_nonneg hmax]
  · simp only [limit, h, if_neg, not_false_iff]
    push_neg at h
    have := v.magnitude_mul_self
    nlinarith [v.magnitude_nonneg]

end Vec2

namespace Boid

/-- The reflected velocity component has the same square as the original. -/
theorem bounceAxis_snd_sq (pos v bound : ℝ) :
    (bounceAxis pos v bound).2 * (bounceAxis pos v bound).2 = v * v := by
  unfold bounceAxis
  split
  · simp [abs_mul_abs_self]
  · split
    · simp [neg_mul_neg, abs_mul_abs_self]
    · rfl

/-- When the arena is at least 2 units wide on an axis, the clamped position
lies in `[1, bound - 1]`. -/
theorem bounceAxis_fst_bounds (pos v bound : ℝ) (h : 2 ≤ bound) :
    1 ≤ (bounceAxis pos v bound).1 ∧ (bounceAxis pos v bound).1 ≤ bound - 1 := by
  unfold bounceAxis
  split
  · exact ⟨le_of_eq rfl, by show (1 : ℝ) ≤ bound - 1; linarith⟩
  · split
    · exact ⟨by show (1 : ℝ) ≤ bound - 1; linarith, le_of_eq rfl⟩
    · rename_i h1 h2
      push_neg at h1 h2
      exact ⟨h1, h2⟩

/-- The boundary bounce never changes the velocity magnitude: the reflection
flips signs only. -/
theorem bounce_velocity_magnitude (b : Boid) (config : Config) :
    (b.bounce_off_boundaries config).velocity.magnitude = b.velocity.magnitude := by
  unfold bounce_off_boundaries Vec2.magnitude
  simp only
  rw [bounceAxis_snd_sq, bounceAxis_snd_sq]

theorem bounce_is_leader (b : Boid) (config : Config) :
    (b.bounce_off_boundaries config).is_leader = b.is_leader := rfl

theorem update_is_leader (b : Boid) (config : Config) :
    (b.update config).is_leader = b.is_leader := rfl

theorem apply_force_is_leader (b : Boid) (f : Vec2) :
    (b.apply_force f).is_leader = b.is_leader := rfl

theorem update_velocity (b : Boid) (config : Config) :
    (b.update config).velocity.magnitude
      = ((b.velocity + b.acceleration).limit config.max_speed).magnitude := by
  unfold update
  rw [bounce_velocity_magnitude]

end Boid

namespace Simulation

theorem update_leader_state_boids (s : Simulation) :
    s.update_leader_state.boids = s.boids := by
  unfold update_leader_state
  split
  · rfl
  · split <;> rfl

theorem update_leader_state_config (s : Simulation) :
    s.update_leader_state.config = s.config := by
  unfold update_leader_state
  split
  · rfl
  · split <;> rfl

end Simulation

/-- C8: `Vec2::normalize` applied to any vector of magnitude exactly zero
returns that vector unchanged — the explicit `mag > 0` guard means the
division by the magnitude (which would be a division by zero) is never
performed. -/
theorem normalize_zero_magnitude (v : Vec2) (h : v.magnitude = 0) :
    v.normalize = v := by
  unfold Vec2.normalize
  simp [h]

/-- Witness for C8 at the zero vector. -/
theorem normalize_zero_magnitude_witness :
    Vec2.zero.magnitude = 0 ∧ Vec2.zero.normalize = Vec2.zero := by
  have h : Vec2.zero.magnitude = 0 := by
    simp [Vec2.zero, Vec2.magnitude]
  exact ⟨h, normalize_zero_magnitude Vec2.zero h⟩

/-- C1: for every configuration with a nonnegative speed cap, after
`Boid::update` the velocity magnitude is at most `max_speed` (exactly, in the
real-number model of `f32`), the boundary reflection performed after the speed
limit never increases the magnitude, and hence after every `Simulation::update`
tick every agent's velocity magnitude is at most `max_speed`. -/
theorem update_speed_limit (c : Config) (hms : 0 ≤ c.max_speed) :
    (∀ b : Boid, (b.update c).velocity.magnitude ≤ c.max_speed
      ∧ (b.bounce_off_boundaries c).velocity.magnitude ≤ b.velocity.magnitude)
    ∧ ∀ s s' : Simulation, s.config = c → s.update = some s' →
        ∀ b ∈ s'.boids, b.velocity.magnitude ≤ c.max_speed := by
  have hboid : ∀ b : Boid, (b.update c).velocity.magnitude ≤ c.max_speed := by
    intro b
    rw [Boid.update_velocity]
    exact Vec2.limit_magnitude_le _ _ hms
  refine ⟨fun b => ⟨hboid b, le_of_eq (Boid.bounce_velocity_magnitude b c)⟩, ?_⟩
  intro s s' hc hu b hb
  simp only [Simulation.update] at hu
  split at hu
  · exact absurd hu (by simp)
  · rename_i forces hforces
    have hs' : s'.boids = (s.update_leader_state.boids.zip forces).map
        (fun p => (p.1.apply_force p.2).update s.update_leader_state.config) := by
      cases hu
      rfl
    rw [hs'] at hb
    rcases List.mem_map.mp hb with ⟨p, _, rfl⟩
    have hcfg : s.update_leader_state.config = c := by
      rw [Simulation.update_leader_state_config, hc]
    rw [hcfg]
    exact hboid _

/-- Witness for C1 with the default configuration. -/
theorem update_speed_limit_witness :
    0 ≤ Config.default.max_speed ∧
      ∀ b : Boid, (b.update Config.default).velocity.magnitude
        ≤ Config.default.max_speed := by
  have h : 0 ≤ Config.default.max_speed := by norm_num [Config.default]
  exact ⟨h, fun b => ((update_speed_limit Config.default h).1 b).1⟩

/-- After the boundary bounce the position lies in
`[1, width - 1] × [1, height - 1]` whenever the arena is at least 2 units in
each dimension (margin = 1). -/
theorem bounce_position_bounds (b : Boid) (c : Config)
    (hw : 2 ≤ c.width) (hh : 2 ≤ c.height) :
    (1 ≤ (b.bounce_off_boundaries c).position.x
      ∧ (b.bounce_off_boundaries c).position.x ≤ c.width - 1)
    ∧ 1 ≤ (b.bounce_off_boundaries c).position.y
      ∧ (b.bounce_off_boundaries c).position.y ≤ c.height - 1 := by
  have hx := Boid.bounceAxis_fst_bounds b.position.x b.velocity.x c.width hw
  have hy := Boid.bounceAxis_fst_bounds b.position.y b.velocity.y c.height hh
  exact ⟨hx, hy⟩

/-- C2: for every configuration whose width and height are at least 2 (twice
the fixed margin of 1), after `Boid::update` the position lies within
`[1, width - 1] × [1, height - 1]`, and hence so does every agent's position
after every `Simulation::update` tick. -/
theorem update_position_bounds (c : Config) (hw : 2 ≤ c.width) (hh : 2 ≤ c.height) :
    (∀ b : Boid, (1 ≤ (b.update c).position.x ∧ (b.update c).position.x ≤ c.width - 1)
      ∧ 1 ≤ (b.update c).position.y ∧ (b.update c).position.y ≤ c.height - 1)
    ∧ ∀ s s' : Simulation, s.config = c → s.update = some s' →
        ∀ b ∈ s'.boids, (1 ≤ b.position.x ∧ b.position.x ≤ c.width - 1)
          ∧ 1 ≤ b.position.y ∧ b.position.y ≤ c.height - 1 := by
  have hboid : ∀ b : Boid,
      (1 ≤ (b.update c).position.x ∧ (b.update c).position.x ≤ c.width - 1)
      ∧ 1 ≤ (b.update c).position.y ∧ (b.update c).position.y ≤ c.height - 1 := by
    intro b
    exact bounce_position_bounds _ c hw hh
  refine ⟨hboid, ?_⟩
  intro s s' hc hu b hb
  simp only [Simulation.update] at hu
  split at hu
  · exact absurd hu (by simp)
  · rename_i forces hforces
    have hs' : s'.boids = (s.update_leader_state.boids.zip forces).map
        (fun p => (p.1.apply_force p.2).update s.update_leader_state.config) := by
      cases hu
      rfl
    rw [hs'] at hb
    rcases List.mem_map.mp hb with ⟨p, _, rfl⟩
    have hcfg : s.update_leader_state.config = c := by
      rw [Simulation.update_leader_state_config, hc]
    rw [hcfg]
    exact hboid _

/-- Witness for C2 with the default 80 × 24 configuration. -/
theorem update_position_bounds_witness :
    (2 ≤ Config.default.width ∧ 2 ≤ Config.default.height) ∧
      ∀ b : Boid, 1 ≤ (b.update Config.default).position.x := by
  have hw : 2 ≤ Config.default.width := by norm_num [Config.default]
  have hh : 2 ≤ Config.default.height := by norm_num [Config.default]
  exact ⟨⟨hw, hh⟩,
    fun b => (((update_position_bounds Config.default hw hh).1 b).1).1⟩

/-- `Simulation::update` written as an `Option.map` over the force list of the
advanced pre-tick state. -/
theorem update_as_map (s : Simulation) :
    s.update = (Simulation.computeForces s.update_leader_state
        (List.range s.update_leader_state.boids.length)).map
      (fun forces =>
        { boids := (s.update_leader_state.boids.zip forces).map
              (fun p => (p.1.apply_force p.2).update s.update_leader_state.config),
          config := s.update_leader_state.config,
          leader := s.update_leader_state.leader }) := by
  change
    (match Simulation.computeForces s.update_leader_state
        (List.range s.update_leader_state.boids.length) with
      | none => (none : Option Simulation)
      | some forces =>
        some { boids := (s.update_leader_state.boids.zip forces).map
                  (fun p => (p.1.apply_force p.2).update s.update_leader_state.config),
               config := s.update_leader_state.config,
               leader := s.update_leader_state.leader })
    = Option.map (fun forces =>
        { boids := (s.update_leader_state.boids.zip forces).map
              (fun p => (p.1.apply_force p.2).update s.update_leader_state.config),
          config := s.update_leader_state.config,
          leader := s.update_leader_state.leader })
      (Simulation.computeForces s.update_leader_state
        (List.range s.update_leader_state.boids.length))
  cases Simulation.computeForces s.update_leader_state
      (List.range s.update_leader_state.boids.length) <;> rfl

/-- C4: `Simulation::update` is extensionally equal to the reference two-phase
definition: every force is computed from the immutable pre-tick snapshot (the
agent list committed at the previous tick, with the already-advanced leader
patrol state), and then every force is applied and every agent integrated
exactly once in a second pass. -/
theorem update_eq_two_phase (s : Simulation) : s.update = s.updateSpec := by
  rw [update_as_map]
  rfl

/-- If no element of the list lies at distance strictly between 0 and `radius`
from the current boid, the neighbour loop leaves its accumulator unchanged. -/
theorem accumLoop_of_no_neighbor (contrib : Boid → Vec2) (radius : ℝ) (cb : Boid)
    (index : ℕ) (l : List Boid) (k : ℕ) (acc : Vec2 × ℕ)
    (h : ∀ b ∈ l, ¬(0 < cb.position.distance_to b.position ∧
          cb.position.distance_to b.position < radius)) :
    Simulation.accumLoop contrib radius cb index l k acc = acc := by
  induction l generalizing k with
  | nil => rfl
  | cons other rest ih =>
    have hother := h other (List.mem_cons_self other rest)
    have hrest : ∀ b ∈ rest, ¬(0 < cb.position.distance_to b.position ∧
        cb.position.distance_to b.position < radius) :=
      fun b hb => h b (List.mem_cons_of_mem other hb)
    by_cases hk : k = index
    · simp only [Simulation.accumLoop]
      rw [if_pos hk]
      exact ih (k + 1) hrest
    · simp only [Simulation.accumLoop]
      rw [if_neg hk, if_neg hother]
      exact ih (k + 1) hrest

/-- C9: if no agent lies at a distance strictly between 0 and the respective
rule radius from agent `i`'s position, then separation, alignment and cohesion
each return the exact zero vector for agent `i`.  (The agent itself is always
at distance exactly 0 from its own position, so the hypotheses quantify
harmlessly over the whole collection.) -/
theorem rules_zero_without_neighbors (s : Simulation) (i : ℕ) (cb : Boid)
    (hget : s.boids.get? i = some cb) :
    ((∀ b ∈ s.boids, ¬(0 < cb.position.distance_to b.position ∧
        cb.position.distance_to b.position < s.config.separation_radius)) →
      s.separation i = some Vec2.zero)
    ∧ ((∀ b ∈ s.boids, ¬(0 < cb.position.distance_to b.position ∧
        cb.position.distance_to b.position < s.config.alignment_radius)) →
      s.alignment i = some Vec2.zero)
    ∧ ((∀ b ∈ s.boids, ¬(0 < cb.position.distance_to b.position ∧
        cb.position.distance_to b.position < s.config.cohesion_radius)) →
      s.cohesion i = some Vec2.zero) := by
  refine ⟨?_, ?_, ?_⟩ <;> intro h
  · unfold Simulation.separation
    rw [hget, Option.map_some']
    rw [accumLoop_of_no_neighbor _ _ _ _ _ _ _ h]
    simp
  · unfold Simulation.alignment
    rw [hget, Option.map_some']
    rw [accumLoop_of_no_neighbor _ _ _ _ _ _ _ h]
    simp
  · unfold Simulation.cohesion
    rw [hget, Option.map_some']
    rw [accumLoop_of_no_neighbor _ _ _ _ _ _ _ h]
    simp

/-- Witness for C9: in a one-agent simulation there is no neighbour at
positive distance, and all three rules return the zero vector. -/
theorem rules_zero_without_neighbors_witness :
    oneBoidSim.boids.get? 0 = some (Boid.new_leader Config.default)
    ∧ oneBoidSim.separation 0 = some Vec2.zero
    ∧ oneBoidSim.alignment 0 = some Vec2.zero
    ∧ oneBoidSim.cohesion 0 = some Vec2.zero := by
  have hget : oneBoidSim.boids.get? 0 = some (Boid.new_leader Config.default) := rfl
  have hno : ∀ r : ℝ, ∀ b ∈ oneBoidSim.boids,
      ¬(0 < (Boid.new_leader Config.default).position.distance_to b.position ∧
        (Boid.new_leader Config.default).position.distance_to b.position < r) := by
    intro r b hb
    simp only [oneBoidSim, List.mem_singleton] at hb
    subst hb
    have hd : (Boid.new_leader Config.default).position.distance_to
        (Boid.new_leader Config.default).position = 0 := by
      simp [Vec2.distance_to]
    rw [hd]
    simp
  exact ⟨hget,
    (rules_zero_without_neighbors oneBoidSim 0 _ hget).1 (hno _),
    (rules_zero_without_neighbors oneBoidSim 0 _ hget).2.1 (hno _),
    (rules_zero_without_neighbors oneBoidSim 0 _ hget).2.2 (hno _)⟩

/-- C6: characterisation of the leader patrol state machine in
`Simulation::update_leader_state` (leader present and in bounds): in `ToRight`
the update switches to `ToLeft` and sets `target_x = width*0.1` exactly when
the leader's x-position is ≥ `width*0.9`; in `ToLeft` it switches to `ToRight`
and sets `target_x = width*0.9` exactly when x ≤ `width*0.1`; in every other
case direction and `target_x` are left unchanged; moreover the resize
operation never changes the patrol direction (it only recomputes `target_x`
and `sine_amplitude`), so the direction changes only in this update. -/
theorem leader_flip_characterization (s : Simulation) (L : LeaderBird) (lb : Boid)
    (hL : s.leader = some L) (hb : s.boids.get? L.boid_index = some lb) :
    ∃ L', s.update_leader_state.leader = some L'
      ∧ (L.direction = PatrolDirection.ToRight →
          ((L'.direction = PatrolDirection.ToLeft
              ∧ L'.target_x = s.config.width * 0.1)
            ↔ lb.position.x ≥ s.config.width * 0.9)
          ∧ (¬ lb.position.x ≥ s.config.width * 0.9 →
              L'.direction = L.direction ∧ L'.target_x = L.target_x))
      ∧ (L.direction = PatrolDirection.ToLeft →
          ((L'.direction = PatrolDirection.ToRight
              ∧ L'.target_x = s.config.width * 0.9)
            ↔ lb.position.x ≤ s.config.width * 0.1)
          ∧ (¬ lb.position.x ≤ s.config.width * 0.1 →
              L'.direction = L.direction ∧ L'.target_x = L.target_x))
      ∧ ∀ (nc : Config) (rnd2 : ℕ → Vec2 × ℝ),
          (s.adjust_boid_count_for_size nc rnd2).leader.map (fun X => X.direction)
            = s.leader.map (fun X => X.direction) := by
  unfold Simulation.update_leader_state
  simp only [hL, hb]
  cases hdir : L.direction with
  | ToRight =>
    by_cases hx : lb.position.x ≥ s.config.width * 0.9
    · refine ⟨_, rfl, ?_, ?_, ?_⟩ <;>
        simp [hx, Simulation.adjust_boid_count_for_size, hL, hdir]
    · refine ⟨_, rfl, ?_, ?_, ?_⟩ <;>
        simp [hx, Simulation.adjust_boid_count_for_size, hL, hdir]
  | ToLeft =>
    by_cases hx : lb.position.x ≤ s.config.width * 0.1
    · refine ⟨_, rfl, ?_, ?_, ?_⟩ <;>
        simp [hx, Simulation.adjust_boid_count_for_size, hL, hdir]
    · refine ⟨_, rfl, ?_, ?_, ?_⟩ <;>
        simp [hx, Simulation.adjust_boid_count_for_size, hL, hdir]

/-- Witness for C6 in the concrete one-agent simulation. -/
theorem leader_flip_characterization_witness :
    oneBoidSim.leader = some (LeaderBird.new 0 Config.default)
    ∧ ∃ L', oneBoidSim.update_leader_state.leader = some L' := by
  have hL : oneBoidSim.leader = some (LeaderBird.new 0 Config.default) := rfl
  have hb : oneBoidSim.boids.get? (LeaderBird.new 0 Config.default).boid_index
      = some (Boid.new_leader Config.default) := rfl
  obtain ⟨L', hL', _⟩ := leader_flip_characterization oneBoidSim _ _ hL hb
  exact ⟨hL, ⟨L', hL'⟩⟩

/-- Counterexample for C5: with `num_boids = 0` the construction does not fail
and does not produce `num_boids` agents — the leader is pushed unconditionally,
so the collection has exactly 1 agent while `num_boids = 0`. -/
theorem new_zero_boids_counterexample :
    zeroBoidConfig.num_boids = 0
    ∧ (Simulation.new zeroBoidConfig rnd0).boids.length = 1 := by
  constructor
  · rfl
  · simp [Simulation.new, mkFlock, zeroBoidConfig, Config.default]

/-- C5 (amended): for every configuration requesting at least one agent,
construction builds exactly `num_boids` agents, with the leader at index 0
(`is_leader = true`) and every later agent a non-leader, and records the
leader state at index 0; construction never fails (with `num_boids = 0` it
still builds the single unconditional leader). -/
theorem new_builds_leader_and_flock (c : Config) (rnd : ℕ → Vec2 × ℝ)
    (h : 1 ≤ c.num_boids) :
    (Simulation.new c rnd).boids.length = c.num_boids
    ∧ (Simulation.new c rnd).boids.get? 0 = some (Boid.new_leader c)
    ∧ (Boid.new_leader c).is_leader = true
    ∧ (∀ j b, (Simulation.new c rnd).boids.get? (j + 1) = some b →
        b.is_leader = false)
    ∧ (Simulation.new c rnd).leader = some (LeaderBird.new 0 c) := by
  refine ⟨?_, rfl, rfl, ?_, rfl⟩
  · simp only [Simulation.new, mkFlock, List.length_cons, List.length_map,
      List.length_range]
    omega
  · intro j b hb
    simp only [Simulation.new, mkFlock, List.get?_cons_succ, List.get?_map] at hb
    rcases Option.map_eq_some'.mp hb with ⟨k, _, hk⟩
    rw [← hk]
    rfl

/-- Witness for C5 (amended) at the default configuration. -/
theorem new_builds_leader_and_flock_witness :
    1 ≤ Config.default.num_boids
    ∧ (Simulation.new Config.default rnd0).boids.length = Config.default.num_boids := by
  have h : 1 ≤ Config.default.num_boids := by
    show 1 ≤ 25
    omega
  exact ⟨h, (new_builds_leader_and_flock Config.default rnd0 h).1⟩

/-- C3 probe: in a state whose leader index is out of range
(`boid_index = 1 ≥ length 1`), the per-tick leader state update degrades
(returns the state unchanged) and the patrol force degrades (zero force for a
valid agent index), but `follow_leader_force` dereferences
`boids[leader.boid_index]` with no bounds check and panics (`none`) instead of
returning the zero force. -/
theorem follow_leader_force_oob_panics :
    oobSim.follow_leader_force 0 = none
    ∧ oobSim.update_leader_state = oobSim
    ∧ oobSim.leader_patrol_force 0 = some Vec2.zero := by
  refine ⟨rfl, ?_, rfl⟩
  rfl

/-- C7: for every positive target count, `adjust_boid_count_for_size` yields
exactly `num_boids` agents with the original agent at index 0 untouched
(in particular the leader stays at index 0): growth appends only freshly
created non-leader agents at the tail, and shrinking truncates from the tail
only (and only because the target is positive), never removing index 0. -/
theorem adjust_boid_count_correct (s : Simulation) (nc : Config)
    (rnd : ℕ → Vec2 × ℝ) (b0 : Boid)
    (hn : 0 < nc.num_boids) (h0 : s.boids.get? 0 = some b0) :
    (s.adjust_boid_count_for_size nc rnd).boids.length = nc.num_boids
    ∧ (s.adjust_boid_count_for_size nc rnd).boids.get? 0 = some b0
    ∧ (s.boids.length < nc.num_boids →
        (s.adjust_boid_count_for_size nc rnd).boids
          = s.boids ++ mkFlock nc rnd (nc.num_boids - s.boids.length)
        ∧ ∀ b ∈ mkFlock nc rnd (nc.num_boids - s.boids.length),
            b.is_leader = false)
    ∧ (nc.num_boids < s.boids.length →
        (s.adjust_boid_count_for_size nc rnd).boids = s.boids.take nc.num_boids) := by
  have hpos : 0 < s.boids.length := by
    cases hlen : s.boids with
    | nil => rw [hlen] at h0; exact absurd h0 (by simp)
    | cons a t => simp
  have hflock : ∀ n, ∀ b ∈ mkFlock nc rnd n, b.is_leader = false := by
    intro n b hb
    rcases List.mem_map.mp hb with ⟨k, _, rfl⟩
    rfl
  have hB : (s.adjust_boid_count_for_size nc rnd).boids
      = if nc.num_boids > s.boids.length then
          s.boids ++ mkFlock nc rnd (nc.num_boids - s.boids.length)
        else if nc.num_boids < s.boids.length then
          if nc.num_boids > 0 then s.boids.take nc.num_boids else s.boids
        else s.boids := rfl
  by_cases hgt : nc.num_boids > s.boids.length
  · rw [hB, if_pos hgt]
    refine ⟨?_, ?_, fun _ => ⟨rfl, hflock _⟩, fun hc => absurd hc (by omega)⟩
    · simp only [List.length_append, mkFlock, List.length_map, List.length_range]
      omega
    · rw [List.get?_append hpos]
      exact h0
  · rw [hB, if_neg hgt]
    by_cases hlt : nc.num_boids < s.boids.length
    · rw [if_pos hlt, if_pos hn]
      refine ⟨?_, ?_, fun hc => absurd hc (by omega), fun _ => rfl⟩
      · simp only [List.length_take]
        omega
      · rw [List.get?_take hn]
        exact h0
    · rw [if_neg hlt]
      exact ⟨by omega, h0, fun hc => absurd hc (by omega),
        fun hc => absurd hc (by omega)⟩

/-- Witness for C7: growing the one-agent simulation to the default count. -/
theorem adjust_boid_count_correct_witness :
    (0 < Config.default.num_boids
      ∧ oneBoidSim.boids.get? 0 = some (Boid.new_leader Config.default))
    ∧ (oneBoidSim.adjust_boid_count_for_size Config.default rnd0).boids.length
        = Config.default.num_boids := by
  have hn : 0 < Config.default.num_boids := by
    show 0 < 25
    omega
  have h0 : oneBoidSim.boids.get? 0 = some (Boid.new_leader Config.default) := rfl
  exact ⟨⟨hn, h0⟩,
    (adjust_boid_count_correct oneBoidSim Config.default rnd0 _ hn h0).1⟩

theorem get?_some_of_lt {α : Type} (l : List α) (i : ℕ) (h : i < l.length) :
    ∃ a, l.get? i = some a := by
  cases hg : l.get? i with
  | none =>
    have := List.get?_eq_none.mp hg
    omega
  | some a => exact ⟨a, rfl⟩

theorem computeForces_some_of_all_isSome (s : Simulation) (l : List ℕ)
    (h : ∀ i ∈ l, (s.computeForce i).isSome = true) :
    ∃ l', Simulation.computeForces s l = some l' ∧ l'.length = l.length := by
  induction l with
  | nil => exact ⟨[], rfl, rfl⟩
  | cons a t ih =>
    obtain ⟨b, hb⟩ := Option.isSome_iff_exists.mp (h a (List.mem_cons_self a t))
    obtain ⟨l', hl', hlen⟩ := ih (fun x hx => h x (List.mem_cons_of_mem _ hx))
    refine ⟨b :: l', ?_, by simp [hlen]⟩
    simp [Simulation.computeForces, hb, hl']

theorem zip_get?_eq {α β : Type} (l : List α) (m : List β) (i : ℕ) (a : α) (b : β)
    (ha : l.get? i = some a) (hb : m.get? i = some b) :
    (l.zip m).get? i = some (a, b) := by
  induction l generalizing m i with
  | nil => simp at ha
  | cons x t ih =>
    cases m with
    | nil => simp at hb
    | cons y u =>
      cases i with
      | zero =>
        rw [List.get?_cons_zero] at ha hb
        cases ha
        cases hb
        rfl
      | succ j =>
        rw [List.get?_cons_succ] at ha hb
        rw [List.zip_cons_cons, List.get?_cons_succ]
        exact ih u j ha hb

namespace Simulation

/-- The per-tick leader state update never changes which agent index the
leader record refers to. -/
theorem update_leader_state_leader_index (s : Simulation) :
    s.update_leader_state.leader.map (fun L => L.boid_index)
      = s.leader.map (fun L => L.boid_index) := by
  unfold update_leader_state
  split
  · rfl
  · rename_i L hL
    split
    · rfl
    · rename_i lb hlb
      rw [hL]
      simp only [Option.map_some', Option.some.injEq]
      split <;> split <;> rfl

theorem separation_isSome (s : Simulation) (i : ℕ) (h : i < s.boids.length) :
    (s.separation i).isSome = true := by
  obtain ⟨b, hb⟩ := get?_some_of_lt s.boids i h
  unfold separation
  rw [hb]
  rfl

theorem alignment_isSome (s : Simulation) (i : ℕ) (h : i < s.boids.length) :
    (s.alignment i).isSome = true := by
  obtain ⟨b, hb⟩ := get?_some_of_lt s.boids i h
  unfold alignment
  rw [hb]
  rfl

theorem cohesion_isSome (s : Simulation) (i : ℕ) (h : i < s.boids.length) :
    (s.cohesion i).isSome = true := by
  obtain ⟨b, hb⟩ := get?_some_of_lt s.boids i h
  unfold cohesion
  rw [hb]
  rfl

theorem leader_patrol_force_isSome (s : Simulation) (i : ℕ) (h : i < s.boids.length) :
    (s.leader_patrol_force i).isSome = true := by
  unfold leader_patrol_force
  cases s.leader with
  | none => rfl
  | some L =>
    dsimp only
    by_cases hi : i = L.boid_index
    · rw [if_pos hi]
      obtain ⟨b, hb⟩ := get?_some_of_lt s.boids i h
      rw [hb]
      dsimp only
      split <;> rfl
    · rw [if_neg hi]
      rfl

theorem follow_leader_force_isSome (s : Simulation) (i : ℕ) (hInv : ReachInv s)
    (h : i < s.boids.length) :
    (s.follow_leader_force i).isSome = true := by
  unfold follow_leader_force
  cases hsl : s.leader with
  | none => rfl
  | some L =>
    obtain ⟨h0, hlt, b, hb, _⟩ := hInv.2 L hsl
    obtain ⟨cb, hcb⟩ := get?_some_of_lt s.boids i h
    dsimp only
    rw [hb, hcb]
    dsimp only
    split <;> rfl

theorem computeForce_isSome (s : Simulation) (i : ℕ) (hInv : ReachInv s)
    (h : i < s.boids.length) :
    (s.computeForce i).isSome = true := by
  obtain ⟨b, hb⟩ := get?_some_of_lt s.boids i h
  unfold computeForce
  rw [hb]
  dsimp only
  by_cases hl : b.is_leader = true
  · rw [if_pos hl]
    exact leader_patrol_force_isSome s i h
  · rw [if_neg hl]
    obtain ⟨v1, h1⟩ := Option.isSome_iff_exists.mp (separation_isSome s i h)
    obtain ⟨v2, h2⟩ := Option.isSome_iff_exists.mp (alignment_isSome s i h)
    obtain ⟨v3, h3⟩ := Option.isSome_iff_exists.mp (cohesion_isSome s i h)
    obtain ⟨v4, h4⟩ := Option.isSome_iff_exists.mp
      (follow_leader_force_isSome s i hInv h)
    rw [h1, h2, h3, h4]
    rfl

end Simulation

/-- `update_leader_state` preserves the leader-reference invariant. -/
theorem reachInv_update_leader_state (s : Simulation) (h : ReachInv s) :
    ReachInv s.update_leader_state := by
  obtain ⟨hpos, hL⟩ := h
  refine ⟨by rw [Simulation.update_leader_state_boids]; exact hpos, ?_⟩
  intro L' hL'
  have hmap := Simulation.update_leader_state_leader_index s
  rw [hL'] at hmap
  cases hsl : s.leader with
  | none =>
    rw [hsl] at hmap
    simp at hmap
  | some L =>
    rw [hsl] at hmap
    simp only [Option.map_some', Option.some.injEq] at hmap
    obtain ⟨h0, hlt, b, hb, hlead⟩ := hL L hsl
    rw [Simulation.update_leader_state_boids, hmap]
    exact ⟨h0, hlt, b, hb, hlead⟩

/-- C10: the leader-reference invariant — non-empty agent collection, and a
leader record (when present) with `boid_index = 0`, strictly in bounds, naming
an agent with `is_leader = true` — is established by construction, re-
established by reset, and preserved by resize and by update (which under it
never panics); consequently every leader dereference, including the unchecked
indexing in `follow_leader_force`, stays in bounds in reachable states. -/
theorem reachable_leader_invariant :
    (∀ (c : Config) (rnd : ℕ → Vec2 × ℝ), ReachInv (Simulation.new c rnd))
    ∧ (∀ (s : Simulation) (rnd : ℕ → Vec2 × ℝ), ReachInv (s.reset rnd))
    ∧ (∀ (s : Simulation) (nc : Config) (rnd : ℕ → Vec2 × ℝ),
        ReachInv s → ReachInv (s.adjust_boid_count_for_size nc rnd))
    ∧ (∀ s : Simulation, ReachInv s → ∃ s', s.update = some s' ∧ ReachInv s')
    ∧ (∀ (s : Simulation) (i : ℕ), ReachInv s → i < s.boids.length →
        (s.follow_leader_force i).isSome = true) := by
  refine ⟨?_, ?_, ?_, ?_, ?_⟩
  · intro c rnd
    refine ⟨by simp [Simulation.new], ?_⟩
    intro L hL
    have hL2 : LeaderBird.new 0 c = L := by
      simpa [Simulation.new] using hL
    subst hL2
    exact ⟨rfl, by simp [Simulation.new, LeaderBird.new],
      Boid.new_leader c, rfl, rfl⟩
  · intro s rnd
    refine ⟨by simp [Simulation.reset], ?_⟩
    intro L hL
    have hL2 : LeaderBird.new 0 s.config = L := by
      simpa [Simulation.reset] using hL
    subst hL2
    exact ⟨rfl, by simp [Simulation.reset, LeaderBird.new],
      Boid.new_leader s.config, rfl, rfl⟩
  · intro s nc rnd hInv
    obtain ⟨hpos, hL⟩ := hInv
    have hB : (s.adjust_boid_count_for_size nc rnd).boids
        = if nc.num_boids > s.boids.length then
            s.boids ++ mkFlock nc rnd (nc.num_boids - s.boids.length)
          else if nc.num_boids < s.boids.length then
            if nc.num_boids > 0 then s.boids.take nc.num_boids else s.boids
          else s.boids := rfl
    have hLdr : (s.adjust_boid_count_for_size nc rnd).leader
        = s.leader.map (fun L =>
            { L with
              target_x :=
                match L.direction with
                | PatrolDirection.ToRight => nc.width * 0.9
                | PatrolDirection.ToLeft => nc.width * 0.1
              sine_amplitude := nc.height * 0.3 }) := rfl
    have hget0 : (s.adjust_boid_count_for_size nc rnd).boids.get? 0
        = s.boids.get? 0 := by
      rw [hB]
      split
      · exact List.get?_append hpos
      · split
        · split
          · rename_i hn0
            exact List.get?_take hn0
          · rfl
        · rfl
    have hpos' : 0 < (s.adjust_boid_count_for_size nc rnd).boids.length := by
      rw [hB]
      split
      · rw [List.length_append]
        omega
      · split
        · split
          · rw [List.length_take]
            rename_i h1 h2 h3
            omega
          · exact hpos
        · exact hpos
    refine ⟨hpos', ?_⟩
    intro L' hL'
    rw [hLdr] at hL'
    rcases Option.map_eq_some'.mp hL' with ⟨L, hsl, hfL⟩
    obtain ⟨h0, hlt, b, hb, hlead⟩ := hL L hsl
    have hidx : L'.boid_index = 0 := by
      rw [← hfL]
      exact h0
    rw [hidx]
    rw [h0] at hb
    exact ⟨rfl, hpos', b, by rw [hget0]; exact hb, hlead⟩
  · intro s hInv
    have hInv1 : ReachInv s.update_leader_state := reachInv_update_leader_state s hInv
    have hall : ∀ i ∈ List.range s.update_leader_state.boids.length,
        (s.update_leader_state.computeForce i).isSome = true := by
      intro i hi
      exact Simulation.computeForce_isSome _ i hInv1 (List.mem_range.mp hi)
    obtain ⟨forces, hf, hflen⟩ := computeForces_some_of_all_isSome _ _ hall
    rw [List.length_range] at hflen
    refine ⟨{ boids := (s.update_leader_state.boids.zip forces).map
                  (fun p => (p.1.apply_force p.2).update s.update_leader_state.config),
              config := s.update_leader_state.config,
              leader := s.update_leader_state.leader }, ?_, ?_⟩
    · rw [update_as_map, hf, Option.map_some']
    · constructor
      · simp only [List.length_map, List.length_zip, hflen, min_self]
        exact hInv1.1
      · intro L' hL'
        have hL2 : s.update_leader_state.leader = some L' := hL'
        obtain ⟨h0, hlt, b, hb, hlead⟩ := hInv1.2 L' hL2
        obtain ⟨f0, hf0⟩ := get?_some_of_lt forces L'.boid_index (by omega)
        refine ⟨h0, ?_, ?_⟩
        · simp only [List.length_map, List.length_zip, hflen, min_self]
          exact hlt
        · refine ⟨(b.apply_force f0).update s.update_leader_state.config, ?_, ?_⟩
          · rw [List.get?_map, zip_get?_eq _ _ _ _ _ hb hf0, Option.map_some']
          · rw [Boid.update_is_leader, Boid.apply_force_is_leader]
            exact hlead
  · intro s i hInv h
    exact Simulation.follow_leader_force_isSome s i hInv h

/-- Witness for C10: the invariant holds for a freshly built default
simulation; one tick succeeds and preserves it; and the follow force is
defined at a valid index. -/
theorem reachable_leader_invariant_witness :
    ReachInv (Simulation.new Config.default rnd0)
    ∧ (∃ s', (Simulation.new Config.default rnd0).update = some s' ∧ ReachInv s')
    ∧ ((Simulation.new Config.default rnd0).follow_leader_force 0).isSome = true := by
  have h1 : ReachInv (Simulation.new Config.default rnd0) := by
    constructor
    · simp [Simulation.new]
    · intro L hL
      have hL2 : LeaderBird.new 0 Config.default = L := by
        simpa [Simulation.new] using hL
      subst hL2
      exact ⟨rfl, by simp [Simulation.new, LeaderBird.new],
        Boid.new_leader Config.default, rfl, rfl⟩
  exact ⟨h1, reachable_leader_invariant.2.2.2.1 _ h1,
    reachable_leader_invariant.2.2.2.2 _ 0 h1 (by simp [Simulation.new])⟩
